import Mathlib

/-!
# Verification of the Ehyd hydrological feature pipeline

A shallow embedding of `src/Ehyd/main.py` (a linear pandas pipeline that
parses per-station measurement files, aligns them on a fixed monthly
calendar, imputes gaps, engineers lag/rolling features, computes a
k-nearest-station feature table, and slices the result into training
windows), together with proofs of the behavioural claims made by the
specification.

Modelling conventions:
* pandas `DataFrame`/`Series` become Lean lists of rows;
* `float`/`float32` values become `ℚ` (all claims are about ordering,
  selection and exact arithmetic identities, never about rounding);
* a missing value (`NaN` / the `"NaN"` marker string) becomes `none` in
  an `Option ℚ` cell;
* Python strings become `List Char`.
-/

namespace Ehyd

/-- A measurement station: numeric identifier `hzbnr01` and planar
coordinates, as loaded by `station_coordinates` in `main.py`. -/
structure Station where
  hzbnr01 : Int
  x : ℚ
  y : ℚ
deriving DecidableEq, Repr

/-- Squared planar Euclidean distance.  `main.py`'s `calculate_distance`
computes `scipy.spatial.distance.euclidean`, i.e. the square root of this
quantity; since `Real.sqrt` is strictly monotone on nonnegatives, comparing
(and sorting by) Euclidean distances is equivalent to comparing squared
distances, and we work with the square so that everything is computable. -/
def calculate_distance_sq (c1 c2 : ℚ × ℚ) : ℚ :=
  (c1.1 - c2.1) * (c1.1 - c2.1) + (c1.2 - c2.2) * (c1.2 - c2.2)

/-- Squared distance from a target station to a candidate station. -/
def distSqTo (gw : Station) (s : Station) : ℚ :=
  calculate_distance_sq (gw.x, gw.y) (s.x, s.y)

/-- Ordering used on candidates in `find_nearest_coordinates`: ascending
squared (equivalently, Euclidean) distance from the target, ties broken by
the candidate's original row position.  This is exactly the order
`pandas.Series.nsmallest` (default `keep='first'`, a stable selection)
produces on the distances series: ascending values, equal values in
original row order. -/
def distLex (gw : Station) (a b : Nat × Station) : Prop :=
  distSqTo gw a.2 < distSqTo gw b.2 ∨
    (distSqTo gw a.2 = distSqTo gw b.2 ∧ a.1 ≤ b.1)

instance (gw : Station) : DecidableRel (distLex gw) := fun a b => by
  unfold distLex
  infer_instance

instance (gw : Station) : IsTotal (Nat × Station) (distLex gw) where
  total a b := by
    unfold distLex
    rcases lt_trichotomy (distSqTo gw a.2) (distSqTo gw b.2) with h | h | h
    · exact Or.inl (Or.inl h)
    · rcases Nat.le_total a.1 b.1 with h2 | h2
      · exact Or.inl (Or.inr ⟨h, h2⟩)
      · exact Or.inr (Or.inr ⟨h.symm, h2⟩)
    · exact Or.inr (Or.inl h)

instance (gw : Station) : IsTrans (Nat × Station) (distLex gw) where
  trans a b c := by
    unfold distLex
    rintro (h1 | ⟨h1, h1'⟩) (h2 | ⟨h2, h2'⟩)
    · exact Or.inl (lt_trans h1 h2)
    · exact Or.inl (h2 ▸ h1)
    · exact Or.inl (h1 ▸ h2)
    · exact Or.inr ⟨h1.trans h2, le_trans h1' h2'⟩

/-- `find_nearest_coordinates` from `main.py`, keeping the original row
positions: compute the distance from `gw_row` to every row of `df`, take
the indices of the `k` smallest distances (ascending, stable), and return
the corresponding rows (`df.loc[nearest_indices]`). -/
def find_nearest_idx (gw : Station) (df : List Station) (k : Nat) :
    List (Nat × Station) :=
  (df.enum.insertionSort (distLex gw)).take k

/-- `find_nearest_coordinates(gw_row, df, k)` from `main.py`: the `k`
candidate rows nearest to the target, nearest first. -/
def find_nearest_coordinates (gw : Station) (df : List Station) (k : Nat) :
    List Station :=
  (find_nearest_idx gw df k).map Prod.snd

/-- The neighbor list recorded by `add_nearest_coordinates_column`:
`nearest['hzbnr01'].tolist()`. -/
def nearest_ids (gw : Station) (df : List Station) (k : Nat) : List Int :=
  (find_nearest_coordinates gw df k).map Station.hzbnr01

end Ehyd

namespace Ehyd

/-- The selected index/station pairs are pairwise ordered by `distLex`. -/
theorem find_nearest_idx_pairwise (gw : Station) (df : List Station) (k : Nat) :
    (find_nearest_idx gw df k).Pairwise (distLex gw) := by
  have h := List.sorted_insertionSort (distLex gw) df.enum
  simpa [find_nearest_idx] using h.sublist (List.take_sublist k _)

/-- The sorted list is a permutation of the enumerated candidates. -/
theorem find_nearest_idx_perm (gw : Station) (df : List Station) :
    List.Perm (df.enum.insertionSort (distLex gw)) df.enum :=
  List.perm_insertionSort (distLex gw) df.enum

theorem find_nearest_idx_length (gw : Station) (df : List Station) (k : Nat) :
    (find_nearest_idx gw df k).length = min k df.length := by
  simp [find_nearest_idx, (find_nearest_idx_perm gw df).length_eq]

theorem find_nearest_idx_nodup_fst (gw : Station) (df : List Station) (k : Nat) :
    ((find_nearest_idx gw df k).map Prod.fst).Nodup := by
  have hperm : List.Perm ((df.enum.insertionSort (distLex gw)).map Prod.fst)
      (df.enum.map Prod.fst) :=
    (find_nearest_idx_perm gw df).map Prod.fst
  have hnd : ((df.enum.insertionSort (distLex gw)).map Prod.fst).Nodup :=
    hperm.nodup_iff.mpr (List.nodup_enum_map_fst df)
  have hsub : ((find_nearest_idx gw df k).map Prod.fst).Sublist
      ((df.enum.insertionSort (distLex gw)).map Prod.fst) :=
    (List.take_sublist k _).map Prod.fst
  exact hnd.sublist hsub

/-- C1: `nearest(target, candidates, k)` returns exactly `min k |candidates|`
candidates, ordered ascending by (squared, equivalently plain) Euclidean
distance from the target with ties broken by original row order, the
returned identifiers are duplicate-free (given that candidate identifiers
are unique, as the station registry guarantees), and when `k` exceeds the
candidate count it returns all candidates (a permutation of the full
candidate list), without padding and without error. -/
theorem nearest_spec (gw : Station) (df : List Station) (k : Nat)
    (hk : 1 ≤ k) (hnd : (df.map Station.hzbnr01).Nodup) :
    (find_nearest_coordinates gw df k).length = min k df.length ∧
    (∀ i j : Nat, ∀ hi : i < (find_nearest_idx gw df k).length,
      ∀ hj : j < (find_nearest_idx gw df k).length, i < j →
      (distSqTo gw ((find_nearest_idx gw df k).get ⟨i, hi⟩).2 <
         distSqTo gw ((find_nearest_idx gw df k).get ⟨j, hj⟩).2 ∨
       (distSqTo gw ((find_nearest_idx gw df k).get ⟨i, hi⟩).2 =
          distSqTo gw ((find_nearest_idx gw df k).get ⟨j, hj⟩).2 ∧
        ((find_nearest_idx gw df k).get ⟨i, hi⟩).1 <
          ((find_nearest_idx gw df k).get ⟨j, hj⟩).1))) ∧
    (nearest_ids gw df k).Nodup ∧
    (df.length ≤ k → List.Perm (find_nearest_coordinates gw df k) df) := by
  refine ⟨?_, ?_, ?_, ?_⟩
  · simp [find_nearest_coordinates, find_nearest_idx_length]
  · intro i j hi hj hij
    have hp := (List.pairwise_iff_getElem.mp (find_nearest_idx_pairwise gw df k))
      i j hi hj hij
    have hne : ((find_nearest_idx gw df k)[i]).1 ≠ ((find_nearest_idx gw df k)[j]).1 := by
      intro he
      have hi2 : i < ((find_nearest_idx gw df k).map Prod.fst).length := by
        simpa using hi
      have hj2 : j < ((find_nearest_idx gw df k).map Prod.fst).length := by
        simpa using hj
      have heq : ((find_nearest_idx gw df k).map Prod.fst)[i] =
          ((find_nearest_idx gw df k).map Prod.fst)[j] := by
        simpa [List.getElem_map] using he
      have := (@List.Nodup.getElem_inj_iff _ _
        (find_nearest_idx_nodup_fst gw df k) i hi2 j hj2).mp heq
      omega
    unfold distLex at hp
    simp only [List.get_eq_getElem]
    rcases hp with h | ⟨h, h'⟩
    · exact Or.inl h
    · exact Or.inr ⟨h, lt_of_le_of_ne h' hne⟩
  · have h1 : List.Perm ((df.enum.insertionSort (distLex gw)).map Prod.snd) df := by
      have := (find_nearest_idx_perm gw df).map Prod.snd
      simpa [List.enumFrom_map_snd, List.enum_eq_enumFrom] using this
    have h2 : (((df.enum.insertionSort (distLex gw)).map Prod.snd).map Station.hzbnr01).Nodup :=
      ((h1.map Station.hzbnr01).nodup_iff).mpr hnd
    have hsub : List.Sublist (nearest_ids gw df k)
        (((df.enum.insertionSort (distLex gw)).map Prod.snd).map Station.hzbnr01) := by
      unfold nearest_ids find_nearest_coordinates find_nearest_idx
      exact ((List.take_sublist k _).map Prod.snd).map Station.hzbnr01
    exact h2.sublist hsub
  · intro hlen
    have htake : find_nearest_idx gw df k = df.enum.insertionSort (distLex gw) := by
      apply List.take_of_length_le
      simpa [(find_nearest_idx_perm gw df).length_eq] using hlen
    have := (find_nearest_idx_perm gw df).map Prod.snd
    unfold find_nearest_coordinates
    rw [htake]
    simpa [List.enumFrom_map_snd, List.enum_eq_enumFrom] using this

/-- Witness for C1 at a concrete input: target at the origin, two
candidates with distinct identifiers, `k = 5` exceeding the candidate
count. -/
theorem nearest_spec_witness :
    (1 ≤ 5 ∧
      (([⟨1, 3, 4⟩, ⟨2, 0, 1⟩] : List Station).map Station.hzbnr01).Nodup) ∧
    ((find_nearest_coordinates ⟨0, 0, 0⟩ [⟨1, 3, 4⟩, ⟨2, 0, 1⟩] 5).length =
        min 5 ([⟨1, 3, 4⟩, ⟨2, 0, 1⟩] : List Station).length ∧
      (∀ i j : Nat,
        ∀ hi : i < (find_nearest_idx ⟨0, 0, 0⟩ [⟨1, 3, 4⟩, ⟨2, 0, 1⟩] 5).length,
        ∀ hj : j < (find_nearest_idx ⟨0, 0, 0⟩ [⟨1, 3, 4⟩, ⟨2, 0, 1⟩] 5).length,
        i < j →
        (distSqTo ⟨0, 0, 0⟩ ((find_nearest_idx ⟨0, 0, 0⟩ [⟨1, 3, 4⟩, ⟨2, 0, 1⟩] 5).get ⟨i, hi⟩).2 <
           distSqTo ⟨0, 0, 0⟩ ((find_nearest_idx ⟨0, 0, 0⟩ [⟨1, 3, 4⟩, ⟨2, 0, 1⟩] 5).get ⟨j, hj⟩).2 ∨
         (distSqTo ⟨0, 0, 0⟩ ((find_nearest_idx ⟨0, 0, 0⟩ [⟨1, 3, 4⟩, ⟨2, 0, 1⟩] 5).get ⟨i, hi⟩).2 =
            distSqTo ⟨0, 0, 0⟩ ((find_nearest_idx ⟨0, 0, 0⟩ [⟨1, 3, 4⟩, ⟨2, 0, 1⟩] 5).get ⟨j, hj⟩).2 ∧
          ((find_nearest_idx ⟨0, 0, 0⟩ [⟨1, 3, 4⟩, ⟨2, 0, 1⟩] 5).get ⟨i, hi⟩).1 <
            ((find_nearest_idx ⟨0, 0, 0⟩ [⟨1, 3, 4⟩, ⟨2, 0, 1⟩] 5).get ⟨j, hj⟩).1))) ∧
      (nearest_ids ⟨0, 0, 0⟩ [⟨1, 3, 4⟩, ⟨2, 0, 1⟩] 5).Nodup ∧
      (([⟨1, 3, 4⟩, ⟨2, 0, 1⟩] : List Station).length ≤ 5 →
        List.Perm (find_nearest_coordinates ⟨0, 0, 0⟩ [⟨1, 3, 4⟩, ⟨2, 0, 1⟩] 5)
          [⟨1, 3, 4⟩, ⟨2, 0, 1⟩])) :=
  ⟨⟨by decide, by decide⟩,
    nearest_spec ⟨0, 0, 0⟩ [⟨1, 3, 4⟩, ⟨2, 0, 1⟩] 5 (by decide) (by decide)⟩

/-! ## The Feature Table and `add_nearest_coordinates_column` -/

/-- A cell of the feature table: an integer (station id), a coordinate,
or a neighbor list as stored by `add_nearest_coordinates_column`. -/
inductive Cell where
  | int (n : Int)
  | rat (q : ℚ)
  | ids (l : List Int)
deriving DecidableEq, Repr

/-- A DataFrame row: an association list from column name to cell. -/
abbrev Row := List (String × Cell)

/-- A pandas DataFrame, shallowly: its column labels and its rows. -/
structure DFrame where
  cols : List String
  rows : List Row
deriving DecidableEq, Repr

/-- The value of a row at the merge key column. -/
def keyOf (key : String) (r : Row) : Option Cell :=
  List.lookup key r

/-- `pandas.DataFrame.merge(on=key, how='inner')`: for each left row, in
left order, emit one output row per right row with an equal (non-null) key,
the output row being the left row extended with the right row's non-key
columns. -/
def mergeInner (L R : DFrame) (key : String) : DFrame where
  cols := L.cols ++ R.cols.filter (fun c => c ≠ key)
  rows := L.rows.flatMap (fun lr =>
    (R.rows.filter (fun rr => (keyOf key lr).isSome && keyOf key rr == keyOf key lr)).map
      (fun rr => lr ++ rr.filter (fun c => c.1 ≠ key)))

/-- The `results_df` built inside `add_nearest_coordinates_column`: one row
per target station of `filtered_gw_coordinates`, holding the station id and
its neighbor list for the auxiliary domain `df_to_add`.  (pandas gives an
empty DataFrame — with no columns at all — when the target list is empty.) -/
def results_df (df_to_add : List Station) (name : String) (k : Nat)
    (filtered_gw_coordinates : List Station) : DFrame where
  cols := if filtered_gw_coordinates.isEmpty then [] else ["hzbnr01", name]
  rows := filtered_gw_coordinates.map (fun gw =>
    [("hzbnr01", Cell.int gw.hzbnr01), (name, Cell.ids (nearest_ids gw df_to_add k))])

/-- `add_nearest_coordinates_column(df_to_add, name, k, df_to_merge)` from
`main.py`: build the neighbor-list column for every target station, then —
only if the key column `hzbnr01` is present in both tables — inner-merge it
onto `df_to_merge`; otherwise raise `KeyError`. -/
def add_nearest_coordinates_column (df_to_add : List Station) (name : String)
    (k : Nat) (df_to_merge : DFrame) (filtered_gw_coordinates : List Station) :
    Except String DFrame :=
  let results := results_df df_to_add name k filtered_gw_coordinates
  if "hzbnr01" ∈ df_to_merge.cols ∧ "hzbnr01" ∈ results.cols then
    Except.ok (mergeInner df_to_merge results "hzbnr01")
  else
    Except.error "KeyError: Column 'hzbnr01' does not exist in one of the dataframes."

/-- The sequence of station-id cells of a table's rows (the row set, with
order and multiplicity). -/
def rowIds (d : DFrame) : List (Option Cell) :=
  d.rows.map (keyOf "hzbnr01")

/-- The row-id sequence of the result of a merge step, `none` when the step
raised. -/
def resRowIds (e : Except String DFrame) : Option (List (Option Cell)) :=
  match e with
  | Except.ok d => some (rowIds d)
  | Except.error _ => none

/-- Filtering a list of target stations for a station id that occurs exactly
once (the id list is duplicate-free and contains it) yields a singleton. -/
theorem filter_id_singleton {l : List Station} (hnd : (l.map Station.hzbnr01).Nodup)
    {v : Int} (hv : v ∈ l.map Station.hzbnr01) :
    ∃ g : Station, l.filter (fun g => g.hzbnr01 == v) = [g] := by
  induction l with
  | nil => simp at hv
  | cons g tl ih =>
    simp only [List.map_cons, List.nodup_cons] at hnd
    by_cases hgv : g.hzbnr01 = v
    · refine ⟨g, ?_⟩
      have htl : tl.filter (fun s => s.hzbnr01 == v) = [] := by
        rw [List.filter_eq_nil_iff]
        intro s hs
        simp only [beq_iff_eq]
        intro hsv
        exact hnd.1 (hgv ▸ hsv ▸ List.mem_map_of_mem Station.hzbnr01 hs)
      simp [List.filter_cons, hgv, htl]
    · have hv' : v ∈ tl.map Station.hzbnr01 := by
        rcases List.mem_map.mp hv with ⟨s, hs, hsv⟩
        rcases List.mem_cons.mp hs with hs | hs
        · exact absurd ((hs ▸ hsv : g.hzbnr01 = v)) hgv
        · exact hsv ▸ List.mem_map_of_mem Station.hzbnr01 hs
      rcases ih hnd.2 hv' with ⟨g0, hg0⟩
      refine ⟨g0, ?_⟩
      rw [List.filter_cons]
      simp only [beq_iff_eq, hgv]
      simpa using hg0

/-- If a row binds the key, looking the key up in the row extended on the
right finds the same binding. -/
theorem keyOf_append {key : String} {r s : Row} {c : Cell}
    (h : keyOf key r = some c) : keyOf key (r ++ s) = some c := by
  unfold keyOf at h ⊢
  rw [List.lookup_append, h, Option.or]

theorem mergeInner_results_rowIds_aux (df_to_add : List Station) (name : String)
    (k : Nat) (gw : List Station)
    (hnd : (gw.map Station.hzbnr01).Nodup) :
    ∀ rows : List Row,
    (∀ r ∈ rows, ∃ v : Int, keyOf "hzbnr01" r = some (Cell.int v) ∧
      v ∈ gw.map Station.hzbnr01) →
    (rows.flatMap (fun lr =>
      ((results_df df_to_add name k gw).rows.filter
          (fun rr => (keyOf "hzbnr01" lr).isSome &&
            (keyOf "hzbnr01" rr == keyOf "hzbnr01" lr))).map
        (fun rr => lr ++ rr.filter (fun c => c.1 ≠ "hzbnr01")))).map (keyOf "hzbnr01") =
    rows.map (keyOf "hzbnr01") := by
  intro rows hkeys
  induction rows with
  | nil => simp
  | cons lr rest ih =>
    rcases hkeys lr (List.mem_cons_self lr rest) with ⟨v, hv, hvmem⟩
    have ihrest := ih (fun r hr => hkeys r (List.mem_cons_of_mem lr hr))
    simp only [List.flatMap_cons, List.map_append, List.map_cons, ihrest]
    -- the block for `lr` contributes exactly `[keyOf lr]`
    have hfilter : ((results_df df_to_add name k gw).rows.filter
        (fun rr => (keyOf "hzbnr01" lr).isSome && (keyOf "hzbnr01" rr == keyOf "hzbnr01" lr))) =
        (gw.filter (fun g => g.hzbnr01 == v)).map (fun g =>
          [("hzbnr01", Cell.int g.hzbnr01), (name, Cell.ids (nearest_ids g df_to_add k))]) := by
      unfold results_df
      simp only
      rw [List.filter_map]
      apply congrArg
      apply List.filter_congr
      intro g hg
      have hv2 : List.lookup "hzbnr01" lr = some (Cell.int v) := hv
      simp only [Function.comp, keyOf, hv2, Option.isSome_some, Bool.true_and,
        List.lookup_cons_self]
      rw [Bool.eq_iff_iff]
      simp [beq_iff_eq]
    rcases filter_id_singleton hnd hvmem with ⟨g0, hg0⟩
    rw [hfilter, hg0]
    simp [keyOf_append hv, hv]

/-- Row-set preservation of the merge step: when every row of the running
Feature Table carries a key that occurs exactly once among the target
stations' ids, the inner merge against the `results_df` built from those
targets preserves the row-id sequence exactly. -/
theorem mergeInner_results_rowIds (df_to_add : List Station) (name : String)
    (k : Nat) (L : DFrame) (gw : List Station)
    (hnd : (gw.map Station.hzbnr01).Nodup)
    (hkeys : ∀ r ∈ L.rows, ∃ v : Int, keyOf "hzbnr01" r = some (Cell.int v) ∧
      v ∈ gw.map Station.hzbnr01) :
    rowIds (mergeInner L (results_df df_to_add name k gw) "hzbnr01") = rowIds L := by
  unfold rowIds mergeInner
  exact mergeInner_results_rowIds_aux df_to_add name k gw hnd L.rows hkeys

/-- When the key column is present on both sides (the target list being
nonempty) and every running-table row id occurs exactly once among the
target ids, the merge step succeeds and preserves the row-id sequence. -/
theorem add_nearest_rowIds_of_keys (df_to_add : List Station) (name : String)
    (k : Nat) (df_to_merge : DFrame) (gw : List Station)
    (hkey : "hzbnr01" ∈ df_to_merge.cols) (hgw : gw ≠ [])
    (hnd : (gw.map Station.hzbnr01).Nodup)
    (hkeys : ∀ r ∈ df_to_merge.rows, ∃ v : Int,
      keyOf "hzbnr01" r = some (Cell.int v) ∧ v ∈ gw.map Station.hzbnr01) :
    resRowIds (add_nearest_coordinates_column df_to_add name k df_to_merge gw) =
      some (rowIds df_to_merge) := by
  have hcols : "hzbnr01" ∈ (results_df df_to_add name k gw).cols := by
    unfold results_df
    simp [hgw]
  unfold add_nearest_coordinates_column
  rw [if_pos ⟨hkey, hcols⟩]
  unfold resRowIds
  simp only
  rw [mergeInner_results_rowIds df_to_add name k df_to_merge gw hnd hkeys]

section RatComputable

attribute [local semireducible] Rat.add Rat.mul Rat.sub Rat.inv

/-- C2 counterexample.  A running Feature Table with rows for stations 1
and 2 is merged against a neighbor column computed for the single target
station 1: the key column is present on both sides, so the operation does
NOT fail — it returns `ok` — yet the resulting table has lost station 2's
row (2 rows before, 1 row after).  This falsifies the claim that a merge
that would change the row set fails with a hard error. -/
theorem add_nearest_silent_row_drop :
    resRowIds (add_nearest_coordinates_column [⟨5, 0, 0⟩] "nearest_rain" 1
        ⟨["hzbnr01"], [[("hzbnr01", Cell.int 1)], [("hzbnr01", Cell.int 2)]]⟩
        [⟨1, 0, 0⟩]) = some [some (Cell.int 1)] ∧
    rowIds ⟨["hzbnr01"], [[("hzbnr01", Cell.int 1)], [("hzbnr01", Cell.int 2)]]⟩ =
      [some (Cell.int 1), some (Cell.int 2)] := by
  constructor
  · decide
  · decide

end RatComputable

/-- C2 (amended): the merge step of `add_nearest_coordinates_column` does
not detect row-set changes; what holds is that whenever every row id of the
running Feature Table occurs exactly once among the target-station ids (as
is the case at every step of the pipeline, where the running table's rows
are exactly the 487 target stations), the inner join preserves the row set
exactly — and the only hard error the operation raises is the `KeyError`
for a missing `hzbnr01` column. -/
theorem augment_preserves_rows_of_matching_ids (df_to_add : List Station)
    (name : String) (k : Nat) (df_to_merge : DFrame) (gw : List Station)
    (hkey : "hzbnr01" ∈ df_to_merge.cols) (hgw : gw ≠ [])
    (hnd : (gw.map Station.hzbnr01).Nodup)
    (hkeys : ∀ r ∈ df_to_merge.rows, ∃ v : Int,
      keyOf "hzbnr01" r = some (Cell.int v) ∧ v ∈ gw.map Station.hzbnr01) :
    resRowIds (add_nearest_coordinates_column df_to_add name k df_to_merge gw) =
      some (rowIds df_to_merge) :=
  add_nearest_rowIds_of_keys df_to_add name k df_to_merge gw hkey hgw hnd hkeys

/-- Witness for the amended C2 at a concrete input: a one-row table merged
against its own single target station. -/
theorem augment_preserves_rows_witness :
    resRowIds (add_nearest_coordinates_column [⟨5, 0, 0⟩] "nearest_rain" 1
        ⟨["hzbnr01"], [[("hzbnr01", Cell.int 1)]]⟩ [⟨1, 2, 3⟩]) =
      some (rowIds ⟨["hzbnr01"], [[("hzbnr01", Cell.int 1)]]⟩) :=
  augment_preserves_rows_of_matching_ids [⟨5, 0, 0⟩] "nearest_rain" 1
    ⟨["hzbnr01"], [[("hzbnr01", Cell.int 1)]]⟩ [⟨1, 2, 3⟩]
    (by decide) (by decide) (by decide)
    (fun r hr => by
      have hr2 : r = [("hzbnr01", Cell.int 1)] := by
        simpa using hr
      subst hr2
      exact ⟨1, by decide, by decide⟩)

/-- C8: the augment step is deterministic — two runs on identical inputs
produce equal results and bit-identical neighbor lists — and it is
idempotent on the row set: under the pipeline's conditions (key column
present, target ids unique, every table row id among the target ids) the
output row-id sequence equals the input row-id sequence. -/
theorem augment_deterministic (df_to_add : List Station)
    (name : String) (k : Nat) (df_to_merge : DFrame) (gw : List Station)
    (hkey : "hzbnr01" ∈ df_to_merge.cols) (hgw : gw ≠ [])
    (hnd : (gw.map Station.hzbnr01).Nodup)
    (hkeys : ∀ r ∈ df_to_merge.rows, ∃ v : Int,
      keyOf "hzbnr01" r = some (Cell.int v) ∧ v ∈ gw.map Station.hzbnr01) :
    (add_nearest_coordinates_column df_to_add name k df_to_merge gw =
      add_nearest_coordinates_column df_to_add name k df_to_merge gw) ∧
    (∀ g ∈ gw, nearest_ids g df_to_add k = nearest_ids g df_to_add k) ∧
    resRowIds (add_nearest_coordinates_column df_to_add name k df_to_merge gw) =
      some (rowIds df_to_merge) :=
  ⟨rfl, fun _ _ => rfl,
    add_nearest_rowIds_of_keys df_to_add name k df_to_merge gw hkey hgw hnd hkeys⟩

/-- Witness for C8 at a concrete input. -/
theorem augment_deterministic_witness :
    (add_nearest_coordinates_column [⟨7, 1, 1⟩] "nearest_snow" 2
        ⟨["hzbnr01"], [[("hzbnr01", Cell.int 4)]]⟩ [⟨4, 0, 0⟩] =
      add_nearest_coordinates_column [⟨7, 1, 1⟩] "nearest_snow" 2
        ⟨["hzbnr01"], [[("hzbnr01", Cell.int 4)]]⟩ [⟨4, 0, 0⟩]) ∧
    (∀ g ∈ ([⟨4, 0, 0⟩] : List Station),
      nearest_ids g [⟨7, 1, 1⟩] 2 = nearest_ids g [⟨7, 1, 1⟩] 2) ∧
    resRowIds (add_nearest_coordinates_column [⟨7, 1, 1⟩] "nearest_snow" 2
        ⟨["hzbnr01"], [[("hzbnr01", Cell.int 4)]]⟩ [⟨4, 0, 0⟩]) =
      some (rowIds ⟨["hzbnr01"], [[("hzbnr01", Cell.int 4)]]⟩) :=
  augment_deterministic [⟨7, 1, 1⟩] "nearest_snow" 2
    ⟨["hzbnr01"], [[("hzbnr01", Cell.int 4)]]⟩ [⟨4, 0, 0⟩]
    (by decide) (by decide) (by decide)
    (fun r hr => by
      have hr2 : r = [("hzbnr01", Cell.int 4)] := by
        simpa using hr
      subst hr2
      exact ⟨4, by decide, by decide⟩)

/-! ## The Time-Series Extractor (`to_dataframe`) -/

/-- Text, as the extractor sees it: a list of characters. -/
abbrev Str := List Char

/-- Whitespace for `str.strip()`. -/
def isWS (c : Char) : Bool :=
  c == ' ' || c == '\t' || c == '\r' || c == '\n'

/-- Python `str.strip()`: remove leading and trailing whitespace. -/
def stripChars (l : Str) : Str :=
  ((l.dropWhile isWS).reverse.dropWhile isWS).reverse

/-- Python `str.split(sep)` for a one-character separator: `""` splits to
`[""]`, and empty fields are kept. -/
def splitOnChar (sep : Char) : Str → List Str
  | [] => [[]]
  | c :: rest =>
    match splitOnChar sep rest with
    | [] => [[]]
    | h :: t => if c == sep then [] :: h :: t else (c :: h) :: t

def isDigitB (c : Char) : Bool :=
  '0' ≤ c && c ≤ '9'

def digitsToNat (l : Str) : Nat :=
  l.foldl (fun a c => a * 10 + (c.toNat - '0'.toNat)) 0

/-- A fixed-width numeric field of `strptime`: all digits, width between
`lo` and `hi`. -/
def parseNatField (l : Str) (lo hi : Nat) : Option Nat :=
  if l ≠ [] ∧ l.all isDigitB ∧ lo ≤ l.length ∧ l.length ≤ hi then
    some (digitsToNat l)
  else none

def isLeap (y : Nat) : Bool :=
  (y % 4 == 0 && y % 100 != 0) || y % 400 == 0

def daysInMonth (y m : Nat) : Nat :=
  if m == 2 then (if isLeap y then 29 else 28)
  else if m == 4 || m == 6 || m == 9 || m == 11 then 30
  else 31

/-- A calendar date, the result of `datetime.date()` (the time of day is
discarded by the extractor). -/
structure Date where
  y : Nat
  m : Nat
  d : Nat
deriving DecidableEq, Repr

/-- `strptime` with format `"%d.%m.%Y"` on the date part. -/
def parseDMY (s : Str) : Option Date :=
  match splitOnChar '.' s with
  | [ds, ms, ys] =>
    match parseNatField ds 1 2, parseNatField ms 1 2, parseNatField ys 1 4 with
    | some d, some m, some y =>
      if 1 ≤ m ∧ m ≤ 12 ∧ 1 ≤ d ∧ d ≤ daysInMonth y m then some ⟨y, m, d⟩
      else none
    | _, _, _ => none
  | _ => none

/-- `strptime` on the time-of-day part: `"%H:%M:%S"` when `withSec`, else
`"%H:%M"`; the parsed time is discarded by `.date()` so only success
matters. -/
def parseHMS (s : Str) (withSec : Bool) : Option Unit :=
  match splitOnChar ':' s, withSec with
  | [hs, ms, ss], true =>
    match parseNatField hs 1 2, parseNatField ms 1 2, parseNatField ss 1 2 with
    | some h, some mi, some sec =>
      if h ≤ 23 ∧ mi ≤ 59 ∧ sec ≤ 61 then some () else none
    | _, _, _ => none
  | [hs, ms], false =>
    match parseNatField hs 1 2, parseNatField ms 1 2 with
    | some h, some mi => if h ≤ 23 ∧ mi ≤ 59 then some () else none
    | _, _ => none
  | _, _ => none

/-- One `strptime` attempt with format `"%d.%m.%Y %H:%M:%S"` (`withSec`)
or `"%d.%m.%Y %H:%M"`, keeping only the date. -/
def parseDateFmt (s : Str) (withSec : Bool) : Option Date :=
  match (splitOnChar ' ' s).filter (fun p => ¬ p.isEmpty) with
  | [dp, tp] =>
    match parseDMY dp, parseHMS tp withSec with
    | some d, some _ => some d
    | _, _ => none
  | _ => none

/-- The extractor's date parsing: try `"%d.%m.%Y %H:%M:%S"`, then
`"%d.%m.%Y %H:%M"`; `None` means both `strptime` calls raised and the line
is skipped. -/
def parseDateLine (s : Str) : Option Date :=
  match parseDateFmt s true with
  | some d => some d
  | none => parseDateFmt s false

/-- Worker for `replaceSub`, structurally recursive on a fuel argument
that always dominates the length of the remaining text. -/
def replaceSubAux (old new : Str) : Nat → Str → Str
  | _, [] => []
  | 0, l => l
  | fuel + 1, c :: rest =>
    if old ≠ [] ∧ old.isPrefixOf (c :: rest) then
      new ++ replaceSubAux old new fuel ((c :: rest).drop old.length)
    else
      c :: replaceSubAux old new fuel rest

/-- Python `str.replace(old, new)`: replace non-overlapping occurrences
left to right (callers only use nonempty `old`). -/
def replaceSub (old new : Str) (l : Str) : Str :=
  replaceSubAux old new l.length l

/-- Python `sub in s`: substring containment. -/
def containsSub (sub l : Str) : Bool :=
  (List.range (l.length + 1)).any (fun i => sub.isPrefixOf (l.drop i))

/-- The decimal core of `np.float32(string)` parsing: optional sign, an
integer and/or fractional digit run around an optional decimal point;
`"NaN"` (the token the pipeline substitutes for the gap marker) parses as
the missing value.  `none` = `ValueError`, `some none` = `NaN`,
`some (some q)` = a number. -/
def parseFloatVal (s : Str) : Option (Option ℚ) :=
  let t := stripChars s
  if t = "NaN".data then some none
  else
    let (sign, t1) : ℚ × Str :=
      match t with
      | '-' :: r => (-1, r)
      | '+' :: r => (1, r)
      | r => (1, r)
    match splitOnChar '.' t1 with
    | [ip] =>
      if ip ≠ [] ∧ ip.all isDigitB then some (some (sign * digitsToNat ip))
      else none
    | [ip, fp] =>
      if (ip ≠ [] ∨ fp ≠ []) ∧ ip.all isDigitB ∧ fp.all isDigitB then
        some (some (sign * ((digitsToNat ip : ℚ) +
          (digitsToNat fp : ℚ) / (10 : ℚ) ^ fp.length)))
      else none
    | _ => none

/-- The gap token of the export format (read as Latin-1 by the source). -/
def gapToken : Str := "Lücke".data

/-- Quality-flag keywords: a value field containing any of these is
dropped outright. -/
def flagKeywords : List Str :=
  ["F".data, "K".data, "rekonstruiert aus Version 3->".data]

/-- What the extractor's per-line body does with one data line. -/
inductive LineStep where
  | append (d : Date) (v : Option ℚ)
  | skip
  | halt
deriving DecidableEq, Repr

/-- One iteration of the data-line loop in `to_dataframe`:
  * an all-whitespace line is skipped (`if line.strip()`);
  * `date_str, value_str = line.split(';')[:2]` raises on a line with no
    semicolon, which the blanket `except Exception: break` turns into a
    halt of the whole loop;
  * a date matching neither accepted format skips the line;
  * the gap token is replaced by `"NaN"`, then lines whose value field
    contains a quality-flag keyword are skipped;
  * `np.float32` failure skips the line; otherwise `[date, value]` is
    appended. -/
def processLine (line : Str) : LineStep :=
  if (stripChars line).isEmpty then LineStep.skip
  else
    match splitOnChar ';' line with
    | [] => LineStep.halt
    | [_] => LineStep.halt
    | dstr :: vstr :: _ =>
      match parseDateLine (stripChars dstr) with
      | none => LineStep.skip
      | some d =>
        let v := replaceSub gapToken "NaN".data (stripChars vstr)
        if flagKeywords.any (fun kw => containsSub kw v) then LineStep.skip
        else
          match parseFloatVal (replaceSub [','] ['.'] v) with
          | none => LineStep.skip
          | some val => LineStep.append d val

/-- The data-line loop of `to_dataframe`: process lines in order, skipping
or appending, and stopping the whole loop at the first halting line. -/
def parseLines : List Str → List (Date × Option ℚ)
  | [] => []
  | l :: ls =>
    match processLine l with
    | LineStep.append d v => (d, v) :: parseLines ls
    | LineStep.skip => parseLines ls
    | LineStep.halt => []

/-- `to_dataframe` for a single file: locate the `"Werte:"` marker line
(skip the file if absent), skip the file if that line contains
`"Invalid"`, parse the data lines after it, and — when any data was
parsed — drop the final parsed row unconditionally. -/
def to_dataframe (lines : List Str) : Option (List (Date × Option ℚ)) :=
  match lines.findIdx? (fun l => "Werte:".data.isPrefixOf l) with
  | none => none
  | some i =>
    if containsSub "Invalid".data (stripChars (lines.getD i [])) then none
    else
      let d := parseLines (lines.drop (i + 1))
      if d.isEmpty then none else some d.dropLast

/-- Splitting on a separator that does not occur yields the single
original field (so the tuple unpacking `date_str, value_str = ...`
raises). -/
theorem splitOnChar_of_not_mem {sep : Char} : ∀ {l : Str}, sep ∉ l →
    splitOnChar sep l = [l]
  | [], _ => rfl
  | c :: rest, h => by
    have hrest : splitOnChar sep rest = [rest] :=
      splitOnChar_of_not_mem (fun hm => h (List.mem_cons_of_mem c hm))
    have hc : (c == sep) = false := by
      simp only [beq_eq_false_iff_ne, ne_eq]
      intro he
      exact h (he ▸ List.mem_cons_self c rest)
    unfold splitOnChar
    rw [hrest]
    simp [hc]

/-- C5: a data line whose value field (stripped) is the gap token
`"Lücke"`, and whose date parses, is classified as an appended entry with
an explicitly missing value — not a parse error (halt), not a dropped line
(skip), and not zero — and processing of subsequent lines continues with
this `(date, missing)` entry in the series. -/
theorem gap_token_yields_missing (line dstr vstr : Str) (rest : List Str)
    (dt : Date)
    (hsplit : splitOnChar ';' line = dstr :: vstr :: rest)
    (hdate : parseDateLine (stripChars dstr) = some dt)
    (hgap : stripChars vstr = gapToken)
    (hne : ¬ (stripChars line).isEmpty) :
    processLine line = LineStep.append dt none ∧
    (∀ ls : List Str, parseLines (line :: ls) = (dt, none) :: parseLines ls) := by
  have hstep : processLine line = LineStep.append dt none := by
    unfold processLine
    rw [if_neg hne, hsplit]
    simp only [hdate, hgap]
    rfl
  refine ⟨hstep, fun ls => ?_⟩
  simp only [parseLines, hstep]

/-- Witness for C5 at a concrete data line. -/
theorem gap_token_yields_missing_witness :
    processLine "01.01.2000 00:00;Lücke".data =
      LineStep.append ⟨2000, 1, 1⟩ none ∧
    (∀ ls : List Str, parseLines ("01.01.2000 00:00;Lücke".data :: ls) =
      (⟨2000, 1, 1⟩, none) :: parseLines ls) :=
  gap_token_yields_missing "01.01.2000 00:00;Lücke".data
    "01.01.2000 00:00".data "Lücke".data [] ⟨2000, 1, 1⟩
    (by decide) (by decide) (by decide) (by decide)

/-- C9: when a file has a (valid) marker line and at least one parsed data
row, `to_dataframe` discards the final parsed row unconditionally, so the
extracted series has exactly one entry fewer than the parsed data rows. -/
theorem last_row_discarded (lines : List Str) (i : Nat)
    (hfind : lines.findIdx? (fun l => "Werte:".data.isPrefixOf l) = some i)
    (hvalid : ¬ containsSub "Invalid".data (stripChars (lines.getD i [])))
    (hdata : parseLines (lines.drop (i + 1)) ≠ []) :
    to_dataframe lines = some ((parseLines (lines.drop (i + 1))).dropLast) ∧
    ((parseLines (lines.drop (i + 1))).dropLast).length =
      (parseLines (lines.drop (i + 1))).length - 1 := by
  constructor
  · unfold to_dataframe
    rw [hfind]
    show (if containsSub "Invalid".data (stripChars (lines.getD i [])) = true then none
      else
        let d := parseLines (List.drop (i + 1) lines)
        if d.isEmpty = true then none else some d.dropLast) =
      some (parseLines (List.drop (i + 1) lines)).dropLast
    rw [if_neg hvalid]
    show (if (parseLines (List.drop (i + 1) lines)).isEmpty = true then none
      else some (parseLines (List.drop (i + 1) lines)).dropLast) =
      some (parseLines (List.drop (i + 1) lines)).dropLast
    rw [if_neg (by simpa using hdata)]
  · simp [List.length_dropLast]

/-- C10: a nonblank data line with no semicolon makes the tuple unpacking
raise, and the blanket `except Exception: break` stops the per-file loop:
every line after it — well-formed or not — is silently excluded, so the
parse of the whole file equals the parse of the lines before the bad
line. -/
theorem halting_line_stops_parse (pre post : List Str) (bad : Str)
    (hne : ¬ (stripChars bad).isEmpty)
    (hsemi : ';' ∉ bad) :
    parseLines (pre ++ bad :: post) = parseLines pre := by
  have hhalt : processLine bad = LineStep.halt := by
    unfold processLine
    rw [if_neg hne, splitOnChar_of_not_mem hsemi]
  induction pre with
  | nil => simp [parseLines, hhalt]
  | cons l pre ih =>
    simp only [List.cons_append, parseLines, List.append_eq, ih]

section RatComputableB

attribute [local semireducible] Rat.add Rat.mul Rat.sub Rat.inv

/-- Witness for C9: a three-line file with two data rows keeps only the
first. -/
theorem last_row_discarded_witness :
    to_dataframe ["Werte:".data, "01.01.2000 00:00;1".data,
        "01.02.2000 00:00;2".data] =
      some ((parseLines (["Werte:".data, "01.01.2000 00:00;1".data,
        "01.02.2000 00:00;2".data].drop (0 + 1))).dropLast) ∧
    ((parseLines (["Werte:".data, "01.01.2000 00:00;1".data,
        "01.02.2000 00:00;2".data].drop (0 + 1))).dropLast).length =
      (parseLines (["Werte:".data, "01.01.2000 00:00;1".data,
        "01.02.2000 00:00;2".data].drop (0 + 1))).length - 1 :=
  last_row_discarded ["Werte:".data, "01.01.2000 00:00;1".data,
      "01.02.2000 00:00;2".data] 0
    (by decide) (by decide) (by decide)

/-- Witness for C10: a well-formed line after the bad line is excluded. -/
theorem halting_line_stops_parse_witness :
    parseLines (["01.01.2000 00:00;1".data] ++ "no semicolon here".data ::
      ["01.02.2000 00:00;2".data]) =
    parseLines ["01.01.2000 00:00;1".data] :=
  halting_line_stops_parse ["01.01.2000 00:00;1".data]
    ["01.02.2000 00:00;2".data] "no semicolon here".data
    (by decide) (by decide)

end RatComputableB

/-! ## The Calendar Normalizer (`process_dataframes`) -/

/-- Linear month index of a date (months since year 0). -/
def mIdx (dt : Date) : Nat :=
  dt.y * 12 + (dt.m - 1)

/-- The month-start date of a linear month index (`resample('MS')` labels
its bins with the first of the month, and the global calendar is built
with `freq='MS'`). -/
def dateOfMIdx (mi : Nat) : Date :=
  ⟨mi / 12, mi % 12 + 1, 1⟩

/-- `df['Date'].dt.to_period('D').nunique()`. -/
def distinctDays (rows : List (Date × Option ℚ)) : Nat :=
  ((rows.map Prod.fst).dedup).length

/-- `df['Date'].dt.to_period('M').nunique()`. -/
def distinctMonths (rows : List (Date × Option ℚ)) : Nat :=
  ((rows.map (fun r => (r.1.y, r.1.m))).dedup).length

/-- The non-missing values of a series falling in a given month. -/
def monthValues (rows : List (Date × Option ℚ)) (mi : Nat) : List ℚ :=
  (rows.filter (fun r => mIdx r.1 == mi)).filterMap Prod.snd

/-- `df.resample('MS').mean()`: one row per month from the earliest to the
latest observed month, labelled with the month start, holding the mean of
the non-missing values in that month (`NaN` when there are none). -/
def resampleMS (rows : List (Date × Option ℚ)) : List (Date × Option ℚ) :=
  match rows with
  | [] => []
  | r0 :: _ =>
    let ms := rows.map (fun r => mIdx r.1)
    let lo := ms.foldl min (mIdx r0.1)
    let hi := ms.foldl max (mIdx r0.1)
    (List.range (hi + 1 - lo)).map (fun off =>
      let mi := lo + off
      let vs := monthValues rows mi
      (dateOfMIdx mi, if vs.isEmpty then none else some (vs.sum / vs.length)))

/-- The fixed global monthly calendar
`pd.date_range('1960-01-01', '2021-12-01', freq='MS')`: 744 month starts. -/
def globalCalendar : List Date :=
  (List.range 744).map (fun i => dateOfMIdx (1960 * 12 + i))

/-- `pd.DataFrame(index=all_dates).join(df, how='left')` followed by
`.fillna("NaN")`: every calendar date keeps one row per matching series
row (several if the series index has duplicates), or a single explicit
missing-marker row when nothing matches. -/
def leftJoinCalendar (rows : List (Date × Option ℚ)) : List (Date × Option ℚ) :=
  globalCalendar.flatMap (fun c =>
    let ms := rows.filter (fun r => r.1 == c)
    if ms.isEmpty then [(c, none)] else ms.map (fun r => (c, r.2)))

/-- `process_dataframes` for one series: resample daily data to monthly
(when the distinct-day count exceeds the distinct-month count), then
reindex onto the fixed global monthly calendar with explicit missing
markers. -/
def process_dataframes (rows : List (Date × Option ℚ)) : List (Date × Option ℚ) :=
  let rows2 := if distinctDays rows > distinctMonths rows then resampleMS rows else rows
  leftJoinCalendar rows2

theorem mIdx_dateOfMIdx (mi : Nat) : mIdx (dateOfMIdx mi) = mi := by
  unfold mIdx dateOfMIdx
  simp only
  omega

theorem flatMap_eq_self_of_blocks {α : Type} (l : List α) (f : α → List α)
    (h : ∀ a ∈ l, f a = [a]) : l.flatMap f = l := by
  induction l with
  | nil => rfl
  | cons a tl ih =>
    rw [List.flatMap_cons, h a (List.mem_cons_self a tl),
      ih (fun b hb => h b (List.mem_cons_of_mem a hb))]
    rfl

/-- A series whose dates are pairwise distinct matches each calendar date
at most once. -/
theorem filter_fst_len_le_one {rows : List (Date × Option ℚ)}
    (hnd : (rows.map Prod.fst).Nodup) (c : Date) :
    (rows.filter (fun r => r.1 == c)).length ≤ 1 := by
  induction rows with
  | nil => simp
  | cons r rest ih =>
    simp only [List.map_cons, List.nodup_cons] at hnd
    rw [List.filter_cons]
    by_cases hc : r.1 = c
    · have hrest : rest.filter (fun x => x.1 == c) = [] := by
        rw [List.filter_eq_nil_iff]
        intro a ha
        simp only [beq_iff_eq]
        intro hac
        exact hnd.1 (hc ▸ hac ▸ List.mem_map_of_mem Prod.fst ha)
      simp [hc, hrest]
    · have hcb : (r.1 == c) = false := by
        simpa using hc
      simp [hcb, ih hnd.2]

/-- When every calendar date matches at most one series row, the joined
index is exactly the global calendar. -/
theorem leftJoin_map_fst (rows2 : List (Date × Option ℚ))
    (h1 : ∀ c ∈ globalCalendar, (rows2.filter (fun r => r.1 == c)).length ≤ 1) :
    (leftJoinCalendar rows2).map Prod.fst = globalCalendar := by
  unfold leftJoinCalendar
  rw [List.map_flatMap]
  apply flatMap_eq_self_of_blocks
  intro c hc
  by_cases he : (rows2.filter (fun r => r.1 == c)).isEmpty
  · simp [he]
  · have hlen : (rows2.filter (fun r => r.1 == c)).length = 1 := by
      have h0 : (rows2.filter (fun r => r.1 == c)).length ≠ 0 := by
        simpa [List.isEmpty_iff, List.length_eq_zero] using he
      have h1c := h1 c hc
      omega
    rcases List.length_eq_one.mp hlen with ⟨r, hr⟩
    simp [hr, he]

/-- Every resampled row is labelled with a month start and carries the
month's mean (or the missing marker when the month has no values). -/
theorem mem_resampleMS {rows : List (Date × Option ℚ)} {r : Date × Option ℚ}
    (h : r ∈ resampleMS rows) :
    ∃ mi : Nat, r = (dateOfMIdx mi,
      if (monthValues rows mi).isEmpty then none
      else some ((monthValues rows mi).sum / (monthValues rows mi).length)) := by
  unfold resampleMS at h
  match rows, h with
  | r0 :: rest, h =>
    simp only [List.mem_map, List.mem_range] at h
    rcases h with ⟨off, _, hoff⟩
    exact ⟨_, hoff.symm⟩

/-- The resampled index has pairwise-distinct dates. -/
theorem resampleMS_fst_nodup (rows : List (Date × Option ℚ)) :
    ((resampleMS rows).map Prod.fst).Nodup := by
  unfold resampleMS
  match rows with
  | [] => simp
  | r0 :: rest =>
    simp only [List.map_map]
    apply List.Nodup.map
    · intro a b hab
      simp only [Function.comp] at hab
      have h2 := congrArg mIdx hab
      simp only [mIdx_dateOfMIdx] at h2
      omega
    · exact List.nodup_range _

/-- If every series row matching a calendar date carries the missing
marker (or no row matches), the joined table contains the explicit
missing-marker row for that date. -/
theorem mem_leftJoin_none {rows2 : List (Date × Option ℚ)} {c : Date}
    (hc : c ∈ globalCalendar)
    (hval : ∀ r ∈ rows2, r.1 = c → r.2 = none) :
    (c, none) ∈ leftJoinCalendar rows2 := by
  unfold leftJoinCalendar
  rw [List.mem_flatMap]
  refine ⟨c, hc, ?_⟩
  by_cases he : (rows2.filter (fun r => r.1 == c)).isEmpty
  · simp [he]
  · cases hms : rows2.filter (fun r => r.1 == c) with
    | nil => simp [hms] at he
    | cons r tl =>
      have hr : r ∈ rows2.filter (fun r => r.1 == c) := by
        rw [hms]
        exact List.mem_cons_self r tl
      have hrc : r.1 = c := by
        simpa using List.of_mem_filter hr
      have hrnone : r.2 = none := hval r (List.mem_of_mem_filter hr) hrc
      simp [hms, hrnone]

/-- C3 (amended): for every input series with pairwise-distinct dates —
whether its native resolution is daily (resampled) or monthly (taken as
is), and regardless of its observed date range — the Calendar Normalizer's
output index is exactly the fixed global monthly calendar 1960-01 ..
2021-12, and every calendar month without an observation in the series
appears as a row carrying the explicit missing marker, not as an absent
row and not as zero. -/
theorem process_dataframes_calendar (rows : List (Date × Option ℚ))
    (hnd : (rows.map Prod.fst).Nodup) :
    ((process_dataframes rows).map Prod.fst = globalCalendar) ∧
    (∀ c ∈ globalCalendar, (∀ r ∈ rows, mIdx r.1 ≠ mIdx c) →
      (c, none) ∈ process_dataframes rows) := by
  unfold process_dataframes
  by_cases hb : distinctDays rows > distinctMonths rows
  · rw [if_pos hb]
    constructor
    · exact leftJoin_map_fst _
        (fun c _ => filter_fst_len_le_one (resampleMS_fst_nodup rows) c)
    · intro c hc hno
      apply mem_leftJoin_none hc
      intro r hr hrc
      rcases mem_resampleMS hr with ⟨mi, hmi⟩
      have hfst : dateOfMIdx mi = c := by
        rw [hmi] at hrc
        exact hrc
      have hmieq : mi = mIdx c := by
        have := congrArg mIdx hfst
        simpa [mIdx_dateOfMIdx] using this
      have hfilter : rows.filter (fun r2 => mIdx r2.1 == mi) = [] :=
        List.filter_eq_nil_iff.mpr (by
          intro r2 hr2
          simp only [beq_iff_eq]
          rw [hmieq]
          exact hno r2 hr2)
      have hempty : monthValues rows mi = [] := by
        unfold monthValues
        rw [hfilter]
        rfl
      rw [hmi]
      simp [hempty]
  · rw [if_neg hb]
    constructor
    · exact leftJoin_map_fst rows (fun c _ => filter_fst_len_le_one hnd c)
    · intro c hc hno
      apply mem_leftJoin_none hc
      intro r hr hrc
      exact (hno r hr (congrArg mIdx hrc)).elim

/-- Witness for C3 at a concrete one-row monthly series. -/
theorem process_dataframes_calendar_witness :
    (([((⟨2000, 1, 15⟩ : Date), some (3 : ℚ))].map Prod.fst).Nodup) ∧
    (((process_dataframes [(⟨2000, 1, 15⟩, some 3)]).map Prod.fst =
        globalCalendar) ∧
      (∀ c ∈ globalCalendar,
        (∀ r ∈ [((⟨2000, 1, 15⟩ : Date), some (3 : ℚ))], mIdx r.1 ≠ mIdx c) →
        (c, none) ∈ process_dataframes [(⟨2000, 1, 15⟩, some 3)])) :=
  ⟨by decide, process_dataframes_calendar [(⟨2000, 1, 15⟩, some 3)] (by decide)⟩

set_option maxRecDepth 100000 in
/-- C3 counterexample.  A series with a duplicated date (two same-day
timestamps collapse to the same date, and the file is classified monthly
because its distinct-day count does not exceed its distinct-month count)
is left-joined onto the calendar with a non-unique index: the duplicated
date produces two output rows, so the output index has 745 entries while
the fixed global calendar has 744 — the claim's "same length" fails. -/
theorem process_dataframes_duplicate_counterexample :
    (process_dataframes [(⟨2000, 1, 1⟩, some 5), (⟨2000, 1, 1⟩, some 7)]).length
      = 745 ∧
    globalCalendar.length = 744 := by
  constructor
  · decide
  · decide

/-! ## The Gap Imputer (`nan_imputer`) -/

/-- The default row used with `List.getD` in elementwise statements. -/
def dfltRow : Date × Option ℚ := (⟨0, 0, 0⟩, none)

/-- The per-calendar-month mean used by `nan_imputer`:
`valid_values[valid_values.index.month == month]['Values'].dropna().mean()`
(`none` — pandas `NaN` — for an empty set of values). -/
def month_mean (rows : List (Date × Option ℚ)) (m : Nat) : Option ℚ :=
  let vs := (rows.filter (fun r => r.1.m == m)).filterMap Prod.snd
  if vs.isEmpty then none else some (vs.sum / vs.length)

/-- One iteration of the `for month in range(1, 13)` loop:
`fillna(month_mean)` on the rows of that calendar month. -/
def fillMonthStep (rows : List (Date × Option ℚ)) (m : Nat) : List (Date × Option ℚ) :=
  let mm := month_mean rows m
  rows.map (fun r => if r.1.m == m then (r.1, r.2.orElse (fun _ => mm)) else r)

/-- `df_copy['Values'].first_valid_index()`, as a position: pandas returns
`None` when every value is missing, and `df.loc[None:]` then slices from
the beginning — hence position `0`. -/
def first_valid_index (rows : List (Date × Option ℚ)) : Nat :=
  match rows.findIdx? (fun r => r.2.isSome) with
  | some i => i
  | none => 0

/-- `nan_imputer` from `main.py`, for one series: take the slice from the
first valid observation on, fill the missing entries of each calendar
month 1..12 with that month's mean over the slice, and write the slice
back over the original (`df_copy.update(valid_values)`). -/
def nan_imputer (rows : List (Date × Option ℚ)) : List (Date × Option ℚ) :=
  rows.take (first_valid_index rows) ++
    (List.range 12).foldl (fun acc j => fillMonthStep acc (j + 1))
      (rows.drop (first_valid_index rows))

theorem fillMonthStep_length (v : List (Date × Option ℚ)) (m : Nat) :
    (fillMonthStep v m).length = v.length := by
  simp [fillMonthStep]

theorem fillMonthStep_getD (v : List (Date × Option ℚ)) (m : Nat) (i : Nat)
    (hi : i < v.length) :
    (fillMonthStep v m).getD i dfltRow =
      (if (v.getD i dfltRow).1.m == m then
        ((v.getD i dfltRow).1, (v.getD i dfltRow).2.orElse (fun _ => month_mean v m))
      else v.getD i dfltRow) := by
  simp only [fillMonthStep, List.getD_eq_getElem?_getD, List.getElem?_map,
    List.getElem?_eq_getElem hi]
  rfl

/-- `fillMonthStep` at month `m` leaves the rows of any other month — and
hence that month's mean — unchanged. -/
theorem month_mean_fillMonthStep (v : List (Date × Option ℚ)) (m m2 : Nat)
    (hne : m2 ≠ m) :
    month_mean (fillMonthStep v m) m2 = month_mean v m2 := by
  have hfil : (fillMonthStep v m).filter (fun r => r.1.m == m2) =
      v.filter (fun r => r.1.m == m2) := by
    unfold fillMonthStep
    rw [List.filter_map]
    have hpred : ∀ r ∈ v,
        ((fun r => r.1.m == m2) ∘ fun r =>
          if r.1.m == m then (r.1, r.2.orElse (fun _ => month_mean v m)) else r) r =
        (fun r => r.1.m == m2) r := by
      intro r hr
      by_cases hrm : r.1.m == m
      · simp [Function.comp, hrm]
      · simp [Function.comp, hrm]
    rw [List.filter_congr hpred]
    have hmap : List.map (fun r : Date × Option ℚ =>
        if r.1.m == m then (r.1, r.2.orElse (fun _ => month_mean v m)) else r)
        (List.filter (fun r => r.1.m == m2) v) =
        List.map id (List.filter (fun r => r.1.m == m2) v) := by
      apply List.map_congr_left
      intro r hr
      have hr2 : (r.1.m == m2) = true := (List.mem_filter.mp hr).2
      have hrm : (r.1.m == m) = false := by
        simp only [beq_iff_eq] at hr2 ⊢
        simp [hr2]
        omega
      simp [hrm]
    rw [hmap, List.map_id]
  unfold month_mean
  rw [hfil]


theorem foldFill_length (ms : List Nat) (v : List (Date × Option ℚ)) :
    (ms.foldl fillMonthStep v).length = v.length := by
  induction ms generalizing v with
  | nil => rfl
  | cons m rest ih =>
    simp only [List.foldl_cons]
    rw [ih (fillMonthStep v m), fillMonthStep_length]

theorem foldFill_getD (ms : List Nat) (v : List (Date × Option ℚ))
    (hnd : ms.Nodup) (i : Nat) (hi : i < v.length) :
    (ms.foldl fillMonthStep v).getD i dfltRow =
      (if (v.getD i dfltRow).1.m ∈ ms then
        ((v.getD i dfltRow).1, (v.getD i dfltRow).2.orElse
          (fun _ => month_mean v (v.getD i dfltRow).1.m))
      else v.getD i dfltRow) := by
  induction ms generalizing v with
  | nil => simp
  | cons m rest ih =>
    simp only [List.foldl_cons]
    have hlen2 : i < (fillMonthStep v m).length := by
      rw [fillMonthStep_length]
      exact hi
    have hstep := fillMonthStep_getD v m i hi
    have hnd2 := (List.nodup_cons.mp hnd).2
    have hnotin := (List.nodup_cons.mp hnd).1
    rw [ih (fillMonthStep v m) hnd2 hlen2]
    by_cases hm : (v.getD i dfltRow).1.m = m
    · have hmb : ((v.getD i dfltRow).1.m == m) = true := by
        simpa using hm
      have hstep2 : (fillMonthStep v m).getD i dfltRow =
          ((v.getD i dfltRow).1, (v.getD i dfltRow).2.orElse
            (fun _ => month_mean v m)) := by
        rw [hstep, if_pos hmb]
      rw [hstep2]
      have hnotin2 : (v.getD i dfltRow).1.m ∉ rest := by
        rw [hm]
        exact hnotin
      rw [if_neg hnotin2, if_pos (by rw [hm]; exact List.mem_cons_self m rest), hm]
    · have hmb : ((v.getD i dfltRow).1.m == m) = false := by
        simpa using hm
      have hstep2 : (fillMonthStep v m).getD i dfltRow = v.getD i dfltRow := by
        rw [hstep, if_neg (by rw [hmb]; simp)]
      rw [hstep2, month_mean_fillMonthStep v m (v.getD i dfltRow).1.m hm]
      have : ((v.getD i dfltRow).1.m ∈ m :: rest) ↔ ((v.getD i dfltRow).1.m ∈ rest) := by
        constructor
        · intro hx
          rcases List.mem_cons.mp hx with hx | hx
          · exact absurd hx hm
          · exact hx
        · exact fun hx => List.mem_cons_of_mem m hx
      by_cases hmem : (v.getD i dfltRow).1.m ∈ rest
      · rw [if_pos hmem, if_pos (this.mpr hmem)]
      · rw [if_neg hmem, if_neg (fun hx => hmem (this.mp hx))]


theorem first_valid_index_le (rows : List (Date × Option ℚ)) :
    first_valid_index rows ≤ rows.length := by
  unfold first_valid_index
  cases h : rows.findIdx? (fun r => r.2.isSome) with
  | none => simp
  | some j => exact le_of_lt (List.findIdx?_eq_some_iff_findIdx_eq.mp h).1

theorem months12_nodup : ((List.range 12).map (fun j => j + 1)).Nodup :=
  (List.nodup_range 12).map (fun a b h => by omega)

theorem imputer_fold_eq (v : List (Date × Option ℚ)) :
    (List.range 12).foldl (fun acc j => fillMonthStep acc (j + 1)) v =
      ((List.range 12).map (fun j => j + 1)).foldl fillMonthStep v := by
  rw [List.foldl_map (fun j => j + 1) fillMonthStep (List.range 12) v]

theorem nan_imputer_length (rows : List (Date × Option ℚ)) :
    (nan_imputer rows).length = rows.length := by
  unfold nan_imputer
  rw [List.length_append, List.length_take, imputer_fold_eq, foldFill_length,
    List.length_drop]
  have := first_valid_index_le rows
  omega

/-- C4: elementwise behaviour of the Gap Imputer.  Every entry strictly
before the first non-missing observation is left unchanged; every entry at
or after it keeps its date and its value when present, and a missing value
is replaced by the mean of the non-missing values of the same calendar
month-of-year taken from the first non-missing observation onward — and
stays missing when that month has no non-missing observation at all. -/
theorem nan_imputer_spec (rows : List (Date × Option ℚ))
    (hm : ∀ r ∈ rows, 1 ≤ r.1.m ∧ r.1.m ≤ 12) (i : Nat) (hi : i < rows.length) :
    (nan_imputer rows).getD i dfltRow =
      (if i < first_valid_index rows then rows.getD i dfltRow
       else ((rows.getD i dfltRow).1,
         ((rows.getD i dfltRow).2).orElse
           (fun _ => month_mean (rows.drop (first_valid_index rows))
             (rows.getD i dfltRow).1.m))) := by
  unfold nan_imputer
  rw [imputer_fold_eq]
  by_cases hlt : i < first_valid_index rows
  · rw [if_pos hlt]
    rw [List.getD_eq_getElem?_getD, List.getElem?_append_left (by
      rw [List.length_take]
      have := first_valid_index_le rows
      omega)]
    rw [List.getElem?_take_of_lt hlt, ← List.getD_eq_getElem?_getD]
  · rw [if_neg hlt]
    push_neg at hlt
    have hfi := first_valid_index_le rows
    rw [List.getD_eq_getElem?_getD, List.getElem?_append_right (by
      rw [List.length_take]
      omega)]
    rw [List.length_take, min_eq_left hfi]
    have hdrop : i - first_valid_index rows <
        (rows.drop (first_valid_index rows)).length := by
      rw [List.length_drop]
      omega
    rw [← List.getD_eq_getElem?_getD,
      foldFill_getD _ _ months12_nodup _ hdrop]
    have hget : (rows.drop (first_valid_index rows)).getD
        (i - first_valid_index rows) dfltRow = rows.getD i dfltRow := by
      rw [List.getD_eq_getElem?_getD, List.getElem?_drop,
        ← List.getD_eq_getElem?_getD]
      congr 1
      omega
    rw [hget]
    have hmem : (rows.getD i dfltRow).1.m ∈ (List.range 12).map (fun j => j + 1) := by
      have hrmem : rows.getD i dfltRow ∈ rows := by
        rw [List.getD_eq_getElem?_getD, List.getElem?_eq_getElem hi]
        exact List.getElem_mem hi
      rcases hm _ hrmem with ⟨h1, h2⟩
      simp only [List.mem_map, List.mem_range]
      exact ⟨(rows.getD i dfltRow).1.m - 1, by omega, by omega⟩
    rw [if_pos hmem]

section RatComputableC

attribute [local semireducible] Rat.add Rat.mul Rat.sub Rat.inv

/-- The concrete series used in the C4 witness: a leading missing entry,
then observed and missing values across two calendar months. -/
def c4Rows : List (Date × Option ℚ) :=
  [(⟨2000, 1, 1⟩, none), (⟨2000, 2, 1⟩, some 1), (⟨2001, 1, 1⟩, some 4),
   (⟨2001, 2, 1⟩, none), (⟨2002, 1, 1⟩, none)]

/-- Witness for C4 at a concrete series: leading missing entry untouched,
a trailing missing January filled with the January mean computed from the
first valid observation onward. -/
theorem nan_imputer_spec_witness :
    ((nan_imputer c4Rows).getD 4 dfltRow =
      (if 4 < first_valid_index c4Rows then c4Rows.getD 4 dfltRow
       else ((c4Rows.getD 4 dfltRow).1,
         ((c4Rows.getD 4 dfltRow).2).orElse
           (fun _ => month_mean (c4Rows.drop (first_valid_index c4Rows))
             (c4Rows.getD 4 dfltRow).1.m)))) ∧
    (nan_imputer c4Rows).getD 4 dfltRow = (⟨2002, 1, 1⟩, some 4) :=
  ⟨nan_imputer_spec c4Rows (by decide) 4 (by decide), by decide⟩

end RatComputableC

/-! ## The Feature Augmenter (`add_lag_and_rolling_mean`) -/

/-- pandas `Series.shift(n)`: `n` leading missing values followed by the
first `len - n` original entries. -/
def shiftSeries (l : List (Option ℚ)) (n : Nat) : List (Option ℚ) :=
  List.replicate (min n l.length) none ++ l.take (l.length - n)

/-- pandas `Series.rolling(window).mean()` with the default
`min_periods = window`: at each position, the mean of the non-missing
values among the last `window` positions when at least `window` of them
are non-missing, else missing. -/
def rollingMean (l : List (Option ℚ)) (w : Nat) : List (Option ℚ) :=
  (List.range l.length).map (fun t =>
    let win := (l.take (t + 1)).drop (t + 1 - w)
    let vs := win.filterMap id
    if w ≤ vs.length then some (vs.sum / vs.length) else none)

/-- `add_lag_and_rolling_mean(df, window)` from `main.py`: `lag_1` is the
value column shifted by one; `rolling_mean_window_lag_1` is the rolling
mean (window `window`) of `lag_1` shifted by one additional step. -/
def add_lag_and_rolling_mean (v : List (Option ℚ)) (window : Nat) :
    List (Option ℚ) × List (Option ℚ) :=
  (shiftSeries v 1, rollingMean (shiftSeries (shiftSeries v 1) 1) window)

theorem shiftSeries_length (l : List (Option ℚ)) (n : Nat) :
    (shiftSeries l n).length = l.length := by
  simp [shiftSeries]
  omega

theorem shiftSeries_getD (l : List (Option ℚ)) (i : Nat) (hi : i < l.length) :
    (shiftSeries l 1).getD i none =
      (if i = 0 then none else l.getD (i - 1) none) := by
  unfold shiftSeries
  have hmin : min 1 l.length = 1 := by omega
  rw [hmin]
  cases i with
  | zero => simp
  | succ j =>
    simp only [List.getD_eq_getElem?_getD]
    rw [List.getElem?_append_right (by simp)]
    simp only [List.length_replicate]
    rw [List.getElem?_take_of_lt (by omega)]
    simp

theorem shiftSeries_take (l : List (Option ℚ)) (t : Nat) (hl : l ≠ [])
    (ht : t ≤ l.length - 1) :
    (shiftSeries l 1).take (t + 1) = none :: l.take t := by
  unfold shiftSeries
  have hmin : min 1 l.length = 1 := by
    have : 0 < l.length := List.length_pos.mpr hl
    omega
  rw [hmin]
  simp only [List.replicate_one, List.cons_append, List.take_succ_cons,
    List.nil_append]
  have hmin2 : min t (l.length - 1) = t := Nat.min_eq_left ht
  rw [List.take_take, hmin2]

theorem rollingMean_getD (l : List (Option ℚ)) (w i : Nat) (hi : i < l.length) :
    (rollingMean l w).getD i none =
      (if w ≤ (((l.take (i + 1)).drop (i + 1 - w)).filterMap id).length then
        some ((((l.take (i + 1)).drop (i + 1 - w)).filterMap id).sum /
          (((l.take (i + 1)).drop (i + 1 - w)).filterMap id).length)
      else none) := by
  unfold rollingMean
  simp only [List.getD_eq_getElem?_getD, List.getElem?_map,
    List.getElem?_range hi]
  rfl

theorem filterMap_id_all_isSome (l : List (Option ℚ)) (h : l.all Option.isSome) :
    (l.filterMap id).length = l.length := by
  induction l with
  | nil => rfl
  | cons x tl ih =>
    simp only [List.all_cons, Bool.and_eq_true] at h
    cases x with
    | none => simp at h
    | some a =>
      simp only [List.filterMap_cons]
      simp [ih h.2]

theorem filterMap_id_length_le (l : List (Option ℚ)) :
    (l.filterMap id).length ≤ l.length := by
  induction l with
  | nil => simp
  | cons x tl ih =>
    cases x <;> simp [List.filterMap_cons] <;> omega

theorem filterMap_id_eq_length_all (l : List (Option ℚ))
    (h : (l.filterMap id).length = l.length) : l.all Option.isSome := by
  induction l with
  | nil => rfl
  | cons x tl ih =>
    cases x with
    | none =>
      exfalso
      simp only [List.filterMap_cons, id, List.length_cons] at h
      have hle := filterMap_id_length_le tl
      omega
    | some a =>
      simp only [List.filterMap_cons, id, List.length_cons] at h
      have := ih (by omega)
      simp [this]


theorem add_lag_spec (v : List (Option ℚ)) (w i : Nat) (hw : 1 ≤ w)
    (hi : i < v.length) :
    ((add_lag_and_rolling_mean v w).1).getD i none =
      (if i = 0 then none else v.getD (i - 1) none) ∧
    ((add_lag_and_rolling_mean v w).2).getD i none =
      (if ((((add_lag_and_rolling_mean v w).1).take i).drop (i - w)).length = w ∧
          ((((add_lag_and_rolling_mean v w).1).take i).drop (i - w)).all Option.isSome then
        some ((((((add_lag_and_rolling_mean v w).1).take i).drop (i - w)).filterMap id).sum / w)
      else none) := by
  unfold add_lag_and_rolling_mean
  simp only
  constructor
  · exact shiftSeries_getD v i hi
  · have hL1 : (shiftSeries v 1).length = v.length := shiftSeries_length v 1
    have hL2 : (shiftSeries (shiftSeries v 1) 1).length = v.length := by
      rw [shiftSeries_length, hL1]
    have hi2 : i < (shiftSeries (shiftSeries v 1) 1).length := by omega
    rw [rollingMean_getD _ w i hi2]
    have hne : shiftSeries v 1 ≠ [] := by
      intro hnil
      rw [hnil] at hL1
      simp at hL1
      omega
    have htake : (shiftSeries (shiftSeries v 1) 1).take (i + 1) =
        none :: (shiftSeries v 1).take i :=
      shiftSeries_take (shiftSeries v 1) i hne (by omega)
    rw [htake]
    by_cases hcase : w ≤ i
    · -- the window is exactly the claim's lagged window
      have hdrop : (none :: (shiftSeries v 1).take i).drop (i + 1 - w) =
          ((shiftSeries v 1).take i).drop (i - w) := by
        have : i + 1 - w = (i - w) + 1 := by omega
        rw [this, List.drop_succ_cons]
      rw [hdrop]
      have hwl : (((shiftSeries v 1).take i).drop (i - w)).length = w := by
        rw [List.length_drop, List.length_take]
        omega
      have hvle : ((((shiftSeries v 1).take i).drop (i - w)).filterMap id).length ≤ w := by
        have := filterMap_id_length_le (((shiftSeries v 1).take i).drop (i - w))
        omega
      by_cases hall : (((shiftSeries v 1).take i).drop (i - w)).all Option.isSome
      · have hlen : ((((shiftSeries v 1).take i).drop (i - w)).filterMap id).length = w := by
          rw [filterMap_id_all_isSome _ hall, hwl]
        rw [if_pos (by omega), if_pos ⟨hwl, hall⟩, hlen]
      · have hlt : ((((shiftSeries v 1).take i).drop (i - w)).filterMap id).length < w := by
          rcases Nat.lt_or_ge ((((shiftSeries v 1).take i).drop (i - w)).filterMap id).length w with h | h
          · exact h
          · exfalso
            have heq : ((((shiftSeries v 1).take i).drop (i - w)).filterMap id).length =
                (((shiftSeries v 1).take i).drop (i - w)).length := by omega
            exact hall (filterMap_id_eq_length_all _ heq)
        rw [if_neg (by omega), if_neg (by
          intro hcon
          exact hall hcon.2)]
    · -- insufficient history: both sides are missing
      push_neg at hcase
      have hzero : i + 1 - w = 0 := by omega
      rw [hzero, List.drop_zero]
      have hfm : ((none :: (shiftSeries v 1).take i).filterMap id) =
          (((shiftSeries v 1).take i).filterMap id) := by
        simp [List.filterMap_cons]
      have hlt : ((none :: (shiftSeries v 1).take i).filterMap id).length < w := by
        rw [hfm]
        have h1 := filterMap_id_length_le ((shiftSeries v 1).take i)
        have h2 : ((shiftSeries v 1).take i).length ≤ i := by
          rw [List.length_take]
          omega
        omega
      have hwll : ((((shiftSeries v 1).take i).drop (i - w)).length ≠ w) := by
        have : i - w = 0 := by omega
        rw [this, List.drop_zero, List.length_take]
        omega
      rw [if_neg (by omega), if_neg (by
        intro hcon
        exact hwll hcon.1)]

section RatComputableT

attribute [local semireducible] Rat.add Rat.mul Rat.sub Rat.inv

theorem add_lag_spec_witness :
    (((add_lag_and_rolling_mean [some 10, some 20, some 30, some 40] 2).1).getD 3 none =
      (if 3 = 0 then none
       else [some (10 : ℚ), some 20, some 30, some 40].getD (3 - 1) none) ∧
     ((add_lag_and_rolling_mean [some 10, some 20, some 30, some 40] 2).2).getD 3 none =
      (if ((((add_lag_and_rolling_mean [some 10, some 20, some 30, some 40] 2).1).take 3).drop (3 - 2)).length = 2 ∧
          ((((add_lag_and_rolling_mean [some 10, some 20, some 30, some 40] 2).1).take 3).drop (3 - 2)).all Option.isSome then
        some ((((((add_lag_and_rolling_mean [some 10, some 20, some 30, some 40] 2).1).take 3).drop (3 - 2)).filterMap id).sum / 2)
      else none)) ∧
    (add_lag_and_rolling_mean [some 10, some 20, some 30, some 40] 2).1 =
      [none, some 10, some 20, some 30] ∧
    (add_lag_and_rolling_mean [some 10, some 20, some 30, some 40] 2).2 =
      [none, none, none, some 15] :=
  ⟨add_lag_spec [some 10, some 20, some 30, some 40] 2 3 (by decide) (by decide),
   by decide, by decide⟩

end RatComputableT

/-! ## The Tensor Assembler (`create_windows`) -/

/-- `create_windows(data, window_size, forecast_horizon)` from `main.py`:
slide a window over the first (time) axis of the rank-3 array
`[time, station, feature]`; each window start `s` yields the input slice
`data[s : s+window_size]` and the target slice
`data[s+window_size : s+window_size+forecast_horizon]`, finally reshaped
so that the station and feature axes are flattened together
(`X.reshape(X.shape[0], X.shape[1], -1)`).  `range` of a negative count is
empty, hence the `Int.toNat` clamp. -/
def create_windows (data : List (List (List ℚ))) (window_size forecast_horizon : Nat) :
    List (List (List ℚ)) × List (List (List ℚ)) :=
  let starts := List.range
    (((data.length : Int) - window_size - forecast_horizon + 1).toNat)
  (starts.map (fun s => ((data.drop s).take window_size).map List.flatten),
   starts.map (fun s =>
     ((data.drop (s + window_size)).take forecast_horizon).map List.flatten))

/-- C7: with `w + h ≤ T` the Tensor Assembler produces exactly
`T - w - h + 1` input/target pairs, the `s`-th input covering time steps
`[s, s + w)` (length `w`) and the `s`-th target `[s + w, s + w + h)`
(length `h`), with no window extending past the array boundary. -/
theorem create_windows_spec (data : List (List (List ℚ))) (w h : Nat)
    (hwh : w + h ≤ data.length) :
    ((create_windows data w h).1).length = data.length - w - h + 1 ∧
    ((create_windows data w h).2).length = data.length - w - h + 1 ∧
    (∀ s, s < data.length - w - h + 1 →
      ((create_windows data w h).1).getD s [] =
        ((data.drop s).take w).map List.flatten ∧
      (((create_windows data w h).1).getD s []).length = w ∧
      ((create_windows data w h).2).getD s [] =
        ((data.drop (s + w)).take h).map List.flatten ∧
      (((create_windows data w h).2).getD s []).length = h ∧
      s + w + h ≤ data.length) := by
  have hcount : (((data.length : Int) - w - h + 1).toNat) =
      data.length - w - h + 1 := by omega
  unfold create_windows
  simp only [hcount]
  refine ⟨by simp, by simp, ?_⟩
  intro s hs
  have hgd1 : ((List.range (data.length - w - h + 1)).map
      (fun s => ((data.drop s).take w).map List.flatten)).getD s [] =
      ((data.drop s).take w).map List.flatten := by
    rw [List.getD_eq_getElem?_getD, List.getElem?_map, List.getElem?_range hs]
    rfl
  have hgd2 : ((List.range (data.length - w - h + 1)).map
      (fun s => ((data.drop (s + w)).take h).map List.flatten)).getD s [] =
      ((data.drop (s + w)).take h).map List.flatten := by
    rw [List.getD_eq_getElem?_getD, List.getElem?_map, List.getElem?_range hs]
    rfl
  refine ⟨hgd1, ?_, hgd2, ?_, by omega⟩
  · rw [hgd1, List.length_map, List.length_take, List.length_drop]
    omega
  · rw [hgd2, List.length_map, List.length_take, List.length_drop]
    omega

/-- Witness for C7: 24 time steps, window 12, horizon 6 give exactly 7
windows. -/
theorem create_windows_spec_witness :
    (((create_windows (List.replicate 24 [[0]]) 12 6).1).length =
        (List.replicate 24 [[(0 : ℚ)]]).length - 12 - 6 + 1 ∧
      ((create_windows (List.replicate 24 [[0]]) 12 6).2).length =
        (List.replicate 24 [[(0 : ℚ)]]).length - 12 - 6 + 1 ∧
      (∀ s, s < (List.replicate 24 [[(0 : ℚ)]]).length - 12 - 6 + 1 →
        ((create_windows (List.replicate 24 [[0]]) 12 6).1).getD s [] =
          (((List.replicate 24 [[(0 : ℚ)]]).drop s).take 12).map List.flatten ∧
        (((create_windows (List.replicate 24 [[0]]) 12 6).1).getD s []).length = 12 ∧
        ((create_windows (List.replicate 24 [[0]]) 12 6).2).getD s [] =
          (((List.replicate 24 [[(0 : ℚ)]]).drop (s + 12)).take 6).map List.flatten ∧
        (((create_windows (List.replicate 24 [[0]]) 12 6).2).getD s []).length = 6 ∧
        s + 12 + 6 ≤ (List.replicate 24 [[(0 : ℚ)]]).length)) ∧
    ((create_windows (List.replicate 24 [[0]]) 12 6).1).length = 7 :=
  ⟨create_windows_spec (List.replicate 24 [[0]]) 12 6 (by decide), by decide⟩

end Ehyd
